import Mathlib

set_option linter.unusedVariables false

/-!
Shallow embedding of `src/sleepandeatbot.py` (class `BabyDataAnalyzer` and the
module-level handlers that drive it).

Modelling conventions:
* instants (`datetime`) are integer seconds since an arbitrary epoch;
* calendar days (`date`) are integer epoch days, so `datetime.combine(d, t)`
  is `d * 86400 + seconds-of t` and `x.date()` is floor division by 86400;
* clock times (`time`) are minutes since midnight (the program only ever
  builds them from `HH:MM` tokens); a message's own time of day is kept in
  seconds so that the `< time(4, 0)` comparison is exact;
* a Python exception escaping a function is modelled by `none`.
-/

/-- JSON-like values, as far as the program inspects them. -/
inductive Json where
  | str (s : String)
  | num (n : Int)
  | obj (fields : List (String × Json))
  | arr (elems : List Json)
  | boolean (b : Bool)
  | null

/-- One element of the top-level `messages` array, after
`datetime.fromisoformat(msg['date'])` has been split into a calendar day and
a seconds-of-day component.  `type` is `msg.get('type')`. -/
structure Msg where
  type : Option String
  day : Int
  secOfDay : Nat
  text : Json

/-- The chat archive: `messages := none` models a JSON document without the
top-level `messages` key (so `data['messages']` raises `KeyError`). -/
structure Archive where
  messages : Option (List Msg)

/-- An element of `sleep_data`: `{'date': start_dt.date(), 'start': start_dt,
'end': end_dt}`.  The source's key `end` is a Lean keyword, so it is `stop`
here. -/
structure SleepRecord where
  date : Int
  start : Int
  stop : Int
deriving DecidableEq

/-- An element of `feed_data`: `{'date': msg_date.date(), 'time': feed_dt,
'amount': amount}`. -/
structure FeedRecord where
  date : Int
  time : Int
  amount : Nat
deriving DecidableEq

/-! ### Character-level embedding of the two regular expressions

`sleep_pattern = re.compile(r'(\d{1,2}:\d{2})[–\-](\d{1,2}:\d{2}).*сон', re.IGNORECASE)`
`feed_pattern  = re.compile(r'(\d{1,2}:\d{2}) смесь[^\d]*(\d+)')`

`re.search` is embedded as a scan over start positions (leftmost match).  At a
fixed position the alternatives of `\d{1,2}` are mutually exclusive (the
second character cannot be both a digit and `:`), so trying the two-digit
form first and then the one-digit form is exactly the backtracking order of
the engine. -/

/-- Lower-casing as used by `re.IGNORECASE` on the characters these patterns
contain (ASCII letters and the basic Cyrillic range). -/
def lowerChar (c : Char) : Char :=
  if 'A' ≤ c ∧ c ≤ 'Z' then Char.ofNat (c.toNat + 32)
  else if 'А' ≤ c ∧ c ≤ 'Я' then Char.ofNat (c.toNat + 32)
  else c

/-- Numeric value of an ASCII digit. -/
def digitVal (c : Char) : Nat := c.toNat - 48

/-- Match `\d{1,2}:\d{2}` at the head of the character list, returning the
matched token and the remainder.  The two-digit-hour alternative is tried
first, as the greedy engine does. -/
def matchTimeAt : List Char → Option (List Char × List Char)
  | a :: b :: c :: d :: e :: rest =>
      if a.isDigit ∧ b.isDigit ∧ c = ':' ∧ d.isDigit ∧ e.isDigit then
        some ([a, b, c, d, e], rest)
      else if a.isDigit ∧ b = ':' ∧ c.isDigit ∧ d.isDigit then
        some ([a, b, c, d], e :: rest)
      else none
  | [a, b, c, d] =>
      if a.isDigit ∧ b = ':' ∧ c.isDigit ∧ d.isDigit then
        some ([a, b, c, d], [])
      else none
  | _ => none

/-- The dash class `[–\-]` (en dash or hyphen-minus). -/
def isDash (c : Char) : Bool := c = '–' ∨ c = '-'

/-- Does `сон` (case-insensitively) start at this position? -/
def isSonAt : List Char → Bool
  | a :: b :: c :: _ => lowerChar a = 'с' ∧ lowerChar b = 'о' ∧ lowerChar c = 'н'
  | _ => false

/-- The tail `.*сон` of the sleep pattern: `сон` must occur somewhere later,
with only non-newline characters (matched by `.`) before it. -/
def hasSonFrom : List Char → Bool
  | [] => false
  | c :: rest => isSonAt (c :: rest) || (if c = '\n' then false else hasSonFrom rest)

/-- Match the whole sleep pattern anchored at this position; on success return
the two captured time tokens. -/
def sleepMatchAt (cs : List Char) : Option (List Char × List Char) :=
  match matchTimeAt cs with
  | none => none
  | some (g1, rest1) =>
    match rest1 with
    | [] => none
    | d :: rest2 =>
      if isDash d then
        match matchTimeAt rest2 with
        | none => none
        | some (g2, rest3) =>
          if hasSonFrom rest3 then some (g1, g2) else none
      else none

/-- `self.sleep_pattern.search(text)`: leftmost match, captured groups. -/
def sleepSearch : List Char → Option (List Char × List Char)
  | [] => none
  | c :: rest =>
    match sleepMatchAt (c :: rest) with
    | some g => some g
    | none => sleepSearch rest

/-- Consume an exact literal at the head of the list. -/
def dropLit : List Char → List Char → Option (List Char)
  | [], rest => some rest
  | _ :: _, [] => none
  | p :: ps, c :: rest => if c = p then dropLit ps rest else none

/-- Decimal value of the maximal digit run at the head of the list
(the greedy `(\d+)` group, read by `int(...)`). -/
def digitRunVal : List Char → Nat → Nat
  | [], acc => acc
  | c :: rest, acc =>
      if c.isDigit then digitRunVal rest (acc * 10 + digitVal c) else acc

/-- `[^\d]*(\d+)`: skip to the first digit (newlines included, since `[^\d]`
matches them) and read the maximal digit run there; fail if no digit follows. -/
def firstNumberAfter : List Char → Option Nat
  | [] => none
  | c :: rest =>
      if c.isDigit then some (digitRunVal (c :: rest) 0) else firstNumberAfter rest

/-- Match the whole feed pattern anchored at this position; on success return
the captured time token and the captured integer. -/
def feedMatchAt (cs : List Char) : Option (List Char × Nat) :=
  match matchTimeAt cs with
  | none => none
  | some (g1, rest1) =>
    match dropLit (' ' :: "смесь".data) rest1 with
    | none => none
    | some rest2 =>
      match firstNumberAfter rest2 with
      | none => none
      | some n => some (g1, n)

/-- `self.feed_pattern.search(text)`: leftmost match, captured groups. -/
def feedSearch : List Char → Option (List Char × Nat)
  | [] => none
  | c :: rest =>
    match feedMatchAt (c :: rest) with
    | some g => some g
    | none => feedSearch rest

/-! ### Time parsing and the body of the extraction loop -/

/-- `datetime.strptime(tok, "%H:%M").time()` on a token produced by the
`\d{1,2}:\d{2}` groups, as minutes since midnight.  `strptime` accepts the
token iff the hour value is at most 23 and the minute value at most 59;
otherwise it raises `ValueError` (`none`). -/
def toTimeMin (g : List Char) : Option Nat :=
  match g with
  | [a, c, d, e] =>
      if a.isDigit ∧ c = ':' ∧ d.isDigit ∧ e.isDigit then
        if digitVal a ≤ 23 ∧ digitVal d * 10 + digitVal e ≤ 59 then
          some (digitVal a * 60 + (digitVal d * 10 + digitVal e))
        else none
      else none
  | [a, b, c, d, e] =>
      if a.isDigit ∧ b.isDigit ∧ c = ':' ∧ d.isDigit ∧ e.isDigit then
        if digitVal a * 10 + digitVal b ≤ 23 ∧ digitVal d * 10 + digitVal e ≤ 59 then
          some ((digitVal a * 10 + digitVal b) * 60 + (digitVal d * 10 + digitVal e))
        else none
      else none
  | _ => none

/-- `datetime.date()` of an instant: floor division by 86400 (Euclidean and
floor division agree for a positive divisor). -/
def dateOf (t : Int) : Int := t / 86400

/-- Lines 62–75 of the source: build the sleep record from the message's
calendar day, the two parsed clock times (minutes) and the message's own
seconds-of-day, including the overnight / 04:00 correction. -/
def sleepRecordOf (m : Msg) (sm em : Nat) : SleepRecord :=
  let start_dt : Int := m.day * 86400 + sm * 60
  let end_dt : Int := m.day * 86400 + em * 60
  if em ≤ sm then
    let end_dt := end_dt + 86400
    if m.secOfDay < 4 * 3600 then
      let start_dt := start_dt - 86400
      let end_dt := end_dt - 86400
      { date := dateOf start_dt, start := start_dt, stop := end_dt }
    else
      { date := dateOf start_dt, start := start_dt, stop := end_dt }
  else
    { date := dateOf start_dt, start := start_dt, stop := end_dt }

/-- One segment of a list-valued `text` field:
`t if isinstance(t, str) else t.get('text', '')`.  A missing `'text'` key
yields `''`; a non-string value under `'text'` makes `''.join` raise
`TypeError`, and a segment that is neither a string nor a dict makes `.get`
raise `AttributeError` (both modelled as `none`). -/
def segmentText : Json → Option String
  | .str s => some s
  | .obj fields =>
      match fields.lookup "text" with
      | none => some ""
      | some (.str s) => some s
      | some _ => none
  | _ => none

/-- `''.join([... for t in text])` over the segments. -/
def joinSegs : List Json → Option String
  | [] => some ""
  | j :: js =>
    match segmentText j, joinSegs js with
    | some s, some rest => some (s ++ rest)
    | _, _ => none

/-- The message body handed to the pattern searches: a plain string is used
as is; a list is joined segment-wise; anything else (including a missing
`text` key, modelled as `Json.null`) makes `re.search` raise `TypeError`. -/
def getBody : Json → Option String
  | .str s => some s
  | .arr xs => joinSegs xs
  | _ => none

/-- Outcome of one iteration of the extraction loop for one message. -/
inductive ParseResult where
  | skip
  | err
  | sleep (r : SleepRecord)
  | feed (r : FeedRecord)
deriving DecidableEq

/-- Lines 50–84 of the source: what one message contributes.  `skip` covers
`type != 'message'` and no-pattern-matched; `err` covers any exception raised
while handling the message. -/
def parseMsg (m : Msg) : ParseResult :=
  if m.type ≠ some "message" then .skip
  else
    match getBody m.text with
    | none => .err
    | some body =>
      match sleepSearch body.data with
      | some (g1, g2) =>
        match toTimeMin g1, toTimeMin g2 with
        | some sm, some em => .sleep (sleepRecordOf m sm em)
        | _, _ => .err
      | none =>
        match feedSearch body.data with
        | some (g1, amount) =>
          match toTimeMin g1 with
          | some fm =>
              .feed { date := m.day, time := m.day * 86400 + fm * 60, amount := amount }
          | none => .err
        | none => .skip

/-- The extraction loop over `data['messages']`: accumulates `sleep_data` and
`feed_data` in message order; an exception in any message aborts the whole
call (`none`), as the source has no try/except around the loop body. -/
def extractRecords : List Msg → Option (List SleepRecord × List FeedRecord)
  | [] => some ([], [])
  | m :: ms =>
    match parseMsg m with
    | .err => none
    | .skip => extractRecords ms
    | .sleep r =>
      match extractRecords ms with
      | some (s, f) => some (r :: s, f)
      | none => none
    | .feed r =>
      match extractRecords ms with
      | some (s, f) => some (s, r :: f)
      | none => none

/-- `BabyDataAnalyzer.parse_chat_data`: `data['messages']` raises `KeyError`
when the key is absent; otherwise the extraction loop runs. -/
def parse_chat_data (a : Archive) : Option (List SleepRecord × List FeedRecord) :=
  match a.messages with
  | none => none
  | some msgs => extractRecords msgs

/-! ### The analyzer's mutable state and the day aggregator -/

/-- The mutable fields of `BabyDataAnalyzer`: the most recently parsed
dataset. -/
structure Analyzer where
  last_sleep_data : List SleepRecord
  last_feed_data : List FeedRecord
deriving DecidableEq

/-- `parse_chat_data` including its effect on `self`: the two `self.last_*`
assignments on lines 87–88 run only when no exception was raised, so on
failure the previously held dataset is untouched. -/
def parse_chat_data_run (st : Analyzer) (a : Archive) :
    Option (List SleepRecord × List FeedRecord) × Analyzer :=
  match parse_chat_data a with
  | none => (none, st)
  | some (s, f) => (some (s, f), { last_sleep_data := s, last_feed_data := f })

/-- One value of the `stats` dict built by `get_daily_stats`. -/
structure DailyStats where
  date : Int
  total_food : Nat
  sleep_hours : ℚ
  awake_hours : ℚ
deriving DecidableEq

/-- The days visited by `while current_date <= end_date`, in ascending
order (empty when the start is after the end). -/
def dateRange (a b : Int) : List Int :=
  (List.range (b - a + 1).toNat).map (fun (i : Nat) => a + (i : Int))

/-- The body of one iteration of `get_daily_stats`: the two inner `for`
loops accumulate the day's feed total and sleep seconds. -/
def dailyStatsFor (st : Analyzer) (d : Int) : DailyStats :=
  let total_food : Nat :=
    st.last_feed_data.foldl (fun acc f => if f.date = d then acc + f.amount else acc) 0
  let total_sleep_seconds : Int :=
    st.last_sleep_data.foldl (fun acc s => if s.date = d then acc + (s.stop - s.start) else acc) 0
  { date := d
    total_food := total_food
    sleep_hours := (total_sleep_seconds : ℚ) / 3600
    awake_hours := 24 - (total_sleep_seconds : ℚ) / 3600 }

/-- `BabyDataAnalyzer.get_daily_stats`: `None` when no dataset is loaded,
otherwise one entry per day of the inclusive range, in iteration order
(Python dicts preserve insertion order, so the dict is modelled as the
ordered list of its values). -/
def get_daily_stats (st : Analyzer) (start_date end_date : Int) :
    Option (List DailyStats) :=
  if st.last_sleep_data = [] ∧ st.last_feed_data = [] then none
  else some ((dateRange start_date end_date).map (dailyStatsFor st))

/-! ### Chart data preparation (`create_timeline_chart`, lines 149–189)

Only the numeric data handed to the plotting backend is embedded: the set of
days on the y axis and, per day, the hour offsets of the sleep spans and feed
points.  The source sorts `all_dates`; sortedness plays no role in the claims
below, which quantify over membership, so the deduplicated day list is kept
in first-occurrence order. -/

/-- The distinct days appearing in either record list. -/
def timelineDays (sleep_data : List SleepRecord) (feed_data : List FeedRecord) :
    List Int :=
  ((sleep_data.map (fun s => s.date)) ++ (feed_data.map (fun f => f.date))).dedup

/-- For one day of the chart: `(start - base_time).total_seconds() / 3600`
and the same for `end`, over the sleep records whose `date` is that day
(`base_time` is that day's midnight). -/
def sleepSpansForDay (sleep_data : List SleepRecord) (day : Int) : List (ℚ × ℚ) :=
  (sleep_data.filter (fun s => decide (s.date = day))).map
    (fun s => (((s.start - day * 86400 : Int) : ℚ) / 3600,
               ((s.stop - day * 86400 : Int) : ℚ) / 3600))

/-- For one day of the chart: `(feed['time'] - base_time).total_seconds() / 3600`
over the feed records whose `date` is that day. -/
def feedPointsForDay (feed_data : List FeedRecord) (day : Int) : List ℚ :=
  (feed_data.filter (fun f => decide (f.date = day))).map
    (fun f => ((f.time - day * 86400 : Int) : ℚ) / 3600)

/-- Concatenation of the segment contributions of a list-valued `text`
field, in the success case (used to state what `joinSegs` produces). -/
def concatSegs (xs : List Json) : String :=
  xs.foldr (fun j acc => (segmentText j).getD "" ++ acc) ""

/-- Does this segment join without an exception: a string, or a dict whose
`'text'` entry is absent or a string? -/
def segOk : Json → Bool
  | .str _ => true
  | .obj fields =>
      match fields.lookup "text" with
      | none => true
      | some (.str _) => true
      | some _ => false
  | _ => false

/-! ### Helper lemmas -/

/-! ### Concrete instances used by the witnesses and counterexamples -/

/-- Concrete sleep message `23:30-06:00 сон` logged at 00:15 on epoch day
20300. -/
def msgC1 : Msg := ⟨some "message", 20300, 900, Json.str "23:30-06:00 сон"⟩

/-- Concrete degenerate sleep message `10:00-10:00 сон`. -/
def msgC6 : Msg := ⟨some "message", 150, 40000, Json.str "10:00-10:00 сон"⟩

/-- Concrete message whose body matches the sleep pattern and also contains
a feed-pattern substring. -/
def msgC8 : Msg := ⟨some "message", 200, 50000, Json.str "09:00-10:00 сон и 14:20 смесь 80"⟩

/-- Concrete dataset: one hour of sleep on day 100, one 120 ml feed on day
101, nothing on day 102. -/
def stC3 : Analyzer := ⟨[⟨100, 8676000, 8679600⟩], [⟨101, 8735400, 120⟩]⟩

/-- Concrete non-empty prior dataset. -/
def stC9 : Analyzer := ⟨[⟨7, 604900, 605000⟩], [⟨7, 605000, 60⟩]⟩

/-- Concrete archive that parses successfully but yields no records. -/
def archC10 : Archive := ⟨some [⟨some "message", 300, 7200, Json.str "привет"⟩]⟩

/-- Concrete non-empty prior dataset for the replacement scenario. -/
def stC10 : Analyzer := ⟨[⟨5, 450000, 460000⟩], []⟩

/-- Message with a regex-matching but `strptime`-invalid time token. -/
def msgC2bad : Msg := ⟨some "message", 400, 36000, Json.str "25:70-26:80 сон"⟩

/-- Valid sleep message in the same batch. -/
def msgC2good : Msg := ⟨some "message", 400, 36000, Json.str "10:00-11:00 сон"⟩

/-- Overnight sleep message logged at noon (no backward shift). -/
def msgC4 : Msg := ⟨some "message", 100, 43200, Json.str "23:30-06:00 сон"⟩

/-- Message whose list-valued text contains a numeric segment. -/
def msgC5bad : Msg :=
  ⟨some "message", 20100, 50000, Json.arr [Json.str "09:30-11:00 сон", Json.num 5]⟩

/-- Message whose list-valued text mixes plain strings, a dict with a string
`'text'` entry and a dict without one. -/
def msgC5 : Msg :=
  ⟨some "message", 210, 30000,
   Json.arr [Json.str "09:30-11:00 ", Json.obj [("text", Json.str "сон")],
             Json.obj [("kind", Json.num 1)]]⟩

/-- Feed-like message whose separator is a comma and a space. -/
def msgC7sep : Msg := ⟨some "message", 220, 30000, Json.str "14:20, смесь 80"⟩

/-- Does the candidate match at this position carry a `strptime`-acceptable
time token (vacuously true when there is no match)? -/
def feedTimeValidAt (cs : List Char) : Bool :=
  match feedMatchAt cs with
  | some (g, _) => (toTimeMin g).isSome
  | none => true

/-- All positions of the text carry `strptime`-acceptable feed-time tokens. -/
def feedTimesValid : List Char → Bool
  | [] => true
  | c :: rest => feedTimeValidAt (c :: rest) && feedTimesValid rest

/-- Concrete single-space feed message. -/
def msgC7w : Msg := ⟨some "message", 230, 30000, Json.str "14:20 смесь 80"⟩

/-! ### Theorems -/

/-- A clock time accepted by `toTimeMin` is at most 23:59, i.e. 1439 minutes. -/
theorem toTimeMin_le (g : List Char) (v : Nat) (h : toTimeMin g = some v) :
    v ≤ 1439 := by
  unfold toTimeMin at h
  split at h
  · split at h
    · split at h
      · rename_i hv
        cases h
        omega
      · cases h
    · cases h
  · split at h
    · split at h
      · rename_i hv
        cases h
        omega
      · cases h
    · cases h
  · cases h

/-- `datetime.combine(d, t).date() = d`: the anchor-day computation undoes
`combine` for an in-range seconds-of-day offset. -/
theorem dateOf_combine (d x : Int) (h0 : 0 ≤ x) (h1 : x < 86400) :
    dateOf (d * 86400 + x) = d := by
  unfold dateOf
  omega

/-- Closed form of the overnight / 04:00 correction, with the anchor day
written out. -/
theorem sleepRecordOf_spec (m : Msg) (sm em : Nat)
    (hsm : sm ≤ 1439) (hem : em ≤ 1439) :
    sleepRecordOf m sm em =
      if em ≤ sm then
        if m.secOfDay < 14400 then
          { date := m.day - 1
            start := (m.day - 1) * 86400 + sm * 60
            stop := m.day * 86400 + em * 60 }
        else
          { date := m.day
            start := m.day * 86400 + sm * 60
            stop := (m.day + 1) * 86400 + em * 60 }
      else
        { date := m.day
          start := m.day * 86400 + sm * 60
          stop := m.day * 86400 + em * 60 } := by
  unfold sleepRecordOf dateOf
  split
  · split
    · rw [SleepRecord.mk.injEq]
      refine ⟨by omega, by omega, by omega⟩
    · rw [SleepRecord.mk.injEq]
      refine ⟨by omega, by omega, by omega⟩
  · rw [SleepRecord.mk.injEq]
    refine ⟨by omega, by omega, by omega⟩

/-- Every interval produced by the correction has positive length and starts
within the first 24 hours of its anchor day; its end lies within 48 hours of
that midnight. -/
theorem sleepRecordOf_bounds (m : Msg) (sm em : Nat)
    (hsm : sm ≤ 1439) (hem : em ≤ 1439) :
    0 ≤ (sleepRecordOf m sm em).start - (sleepRecordOf m sm em).date * 86400 ∧
    (sleepRecordOf m sm em).start - (sleepRecordOf m sm em).date * 86400 < 86400 ∧
    (sleepRecordOf m sm em).start < (sleepRecordOf m sm em).stop ∧
    (sleepRecordOf m sm em).stop - (sleepRecordOf m sm em).date * 86400 < 172800 := by
  rw [sleepRecordOf_spec m sm em hsm hem]
  split_ifs <;> dsimp only <;> omega

/-- Inversion for the sleep branch of `parseMsg`: a sleep record always comes
out of `sleepRecordOf` applied to two accepted clock times. -/
theorem parseMsg_sleep_inv (m : Msg) (r : SleepRecord)
    (h : parseMsg m = ParseResult.sleep r) :
    ∃ sm em, sm ≤ 1439 ∧ em ≤ 1439 ∧ r = sleepRecordOf m sm em := by
  unfold parseMsg at h
  split at h
  · cases h
  · split at h
    · cases h
    · split at h
      · split at h
        · rename_i sm em hsm hem
          cases h
          exact ⟨sm, em, toTimeMin_le _ _ hsm, toTimeMin_le _ _ hem, rfl⟩
        · cases h
      · split at h
        · split at h
          · cases h
          · cases h
        · cases h

/-- Inversion for the feed branch of `parseMsg`: a feed record's instant is
its own day's midnight plus an accepted clock time. -/
theorem parseMsg_feed_inv (m : Msg) (r : FeedRecord)
    (h : parseMsg m = ParseResult.feed r) :
    ∃ fm : Nat, fm ≤ 1439 ∧ r.time = r.date * 86400 + (fm : Int) * 60 := by
  unfold parseMsg at h
  split at h
  · cases h
  · split at h
    · cases h
    · split at h
      · split at h
        · cases h
        · cases h
      · split at h
        · split at h
          · rename_i fm hfm
            cases h
            exact ⟨fm, toTimeMin_le _ _ hfm, rfl⟩
          · cases h
        · cases h

/-- Every sleep record in the extraction output comes from `sleepRecordOf`
applied to accepted clock times of some message. -/
theorem extractRecords_sleep_mem (msgs : List Msg) (s : List SleepRecord)
    (f : List FeedRecord) (h : extractRecords msgs = some (s, f))
    (r : SleepRecord) (hr : r ∈ s) :
    ∃ m sm em, sm ≤ 1439 ∧ em ≤ 1439 ∧ r = sleepRecordOf m sm em := by
  induction msgs generalizing s f with
  | nil =>
    simp only [extractRecords, Option.some.injEq, Prod.mk.injEq] at h
    rcases h with ⟨hs, hf⟩
    rw [← hs] at hr
    cases hr
  | cons m ms ih =>
    rcases hp : parseMsg m with _ | _ | r1 | f1 <;>
        simp only [extractRecords, hp] at h
    · exact ih s f h hr
    · cases h
    · rcases h2 : extractRecords ms with _ | sf
      · rw [h2] at h
        cases h
      · rcases sf with ⟨s2, f2⟩
        rw [h2] at h
        simp only [Option.some.injEq, Prod.mk.injEq] at h
        rcases h with ⟨hs, hf⟩
        rw [← hs] at hr
        rcases List.mem_cons.mp hr with hr1 | hr2
        · rw [hr1]
          exact ⟨m, parseMsg_sleep_inv m r1 hp⟩
        · exact ih s2 f2 h2 hr2
    · rcases h2 : extractRecords ms with _ | sf
      · rw [h2] at h
        cases h
      · rcases sf with ⟨s2, f2⟩
        rw [h2] at h
        simp only [Option.some.injEq, Prod.mk.injEq] at h
        rcases h with ⟨hs, hf⟩
        rw [← hs] at hr
        exact ih s2 f2 h2 hr

/-- Every feed record in the extraction output has its instant anchored at
its own day's midnight plus an accepted clock time. -/
theorem extractRecords_feed_mem (msgs : List Msg) (s : List SleepRecord)
    (f : List FeedRecord) (h : extractRecords msgs = some (s, f))
    (r : FeedRecord) (hr : r ∈ f) :
    ∃ fm : Nat, fm ≤ 1439 ∧ r.time = r.date * 86400 + (fm : Int) * 60 := by
  induction msgs generalizing s f with
  | nil =>
    simp only [extractRecords, Option.some.injEq, Prod.mk.injEq] at h
    rcases h with ⟨hs, hf⟩
    rw [← hf] at hr
    cases hr
  | cons m ms ih =>
    rcases hp : parseMsg m with _ | _ | r1 | f1 <;>
        simp only [extractRecords, hp] at h
    · exact ih s f h hr
    · cases h
    · rcases h2 : extractRecords ms with _ | sf
      · rw [h2] at h
        cases h
      · rcases sf with ⟨s2, f2⟩
        rw [h2] at h
        simp only [Option.some.injEq, Prod.mk.injEq] at h
        rcases h with ⟨hs, hf⟩
        rw [← hf] at hr
        exact ih s2 f2 h2 hr
    · rcases h2 : extractRecords ms with _ | sf
      · rw [h2] at h
        cases h
      · rcases sf with ⟨s2, f2⟩
        rw [h2] at h
        simp only [Option.some.injEq, Prod.mk.injEq] at h
        rcases h with ⟨hs, hf⟩
        rw [← hf] at hr
        rcases List.mem_cons.mp hr with hr1 | hr2
        · rw [hr1]
          exact parseMsg_feed_inv m f1 hp
        · exact ih s2 f2 h2 hr2

/-- Casting an integer second count to chart hours keeps nonnegativity. -/
theorem qdiv3600_nonneg (x : Int) (h : 0 ≤ x) : 0 ≤ (x : ℚ) / 3600 := by
  apply div_nonneg _ (by norm_num)
  exact_mod_cast h

/-- Casting an integer second count to chart hours respects strict upper
bounds given in whole hours. -/
theorem qdiv3600_lt (x b : Int) (h : x < b * 3600) : (x : ℚ) / 3600 < (b : ℚ) := by
  rw [div_lt_iff₀ (by norm_num : (0 : ℚ) < 3600)]
  exact_mod_cast h

/-- C1: for a message matching the sleep pattern, the start and end instants
combine the message's calendar day with the parsed clock times; a strictly
later end clock time shifts nothing and the duration is the literal clock
difference; an end at or before the start adds one day to the end instant,
and a message time-of-day before 04:00 additionally moves both instants
back one day. -/
theorem sleep_overnight_anchoring (m : Msg) (body : String) (g1 g2 : List Char)
    (sm em : Nat)
    (htype : m.type = some "message")
    (hbody : getBody m.text = some body)
    (hsearch : sleepSearch body.data = some (g1, g2))
    (h1 : toTimeMin g1 = some sm) (h2 : toTimeMin g2 = some em) :
    parseMsg m = ParseResult.sleep (sleepRecordOf m sm em) ∧
    (sm < em →
      sleepRecordOf m sm em =
        { date := m.day, start := m.day * 86400 + sm * 60,
          stop := m.day * 86400 + em * 60 } ∧
      (sleepRecordOf m sm em).stop - (sleepRecordOf m sm em).start
        = ((em : Int) - (sm : Int)) * 60) ∧
    (em ≤ sm → 14400 ≤ m.secOfDay →
      sleepRecordOf m sm em =
        { date := m.day, start := m.day * 86400 + sm * 60,
          stop := (m.day + 1) * 86400 + em * 60 }) ∧
    (em ≤ sm → m.secOfDay < 14400 →
      sleepRecordOf m sm em =
        { date := m.day - 1, start := (m.day - 1) * 86400 + sm * 60,
          stop := m.day * 86400 + em * 60 }) := by
  have hsm := toTimeMin_le _ _ h1
  have hem := toTimeMin_le _ _ h2
  refine ⟨?_, ?_, ?_, ?_⟩
  · simp [parseMsg, htype, hbody, hsearch, h1, h2]
  · intro hlt
    rw [sleepRecordOf_spec m sm em hsm hem, if_neg (by omega)]
    exact ⟨rfl, by dsimp only; omega⟩
  · intro hle hsec
    rw [sleepRecordOf_spec m sm em hsm hem, if_pos hle, if_neg (by omega)]
  · intro hle hsec
    rw [sleepRecordOf_spec m sm em hsm hem, if_pos hle, if_pos hsec]

/-- Witness for C1: the hypotheses hold for `msgC1` and the produced record
is anchored to the previous day with a 6.5-hour (23400-second) duration. -/
theorem sleep_overnight_anchoring_witness :
    (msgC1.type = some "message" ∧
     getBody msgC1.text = some "23:30-06:00 сон" ∧
     sleepSearch "23:30-06:00 сон".data = some ("23:30".data, "06:00".data) ∧
     toTimeMin "23:30".data = some 1410 ∧
     toTimeMin "06:00".data = some 360) ∧
    parseMsg msgC1 =
      ParseResult.sleep
        { date := msgC1.day - 1, start := (msgC1.day - 1) * 86400 + 1410 * 60,
          stop := msgC1.day * 86400 + 360 * 60 } ∧
    (sleepRecordOf msgC1 1410 360).stop - (sleepRecordOf msgC1 1410 360).start = 23400 := by
  have h := sleep_overnight_anchoring msgC1 "23:30-06:00 сон" "23:30".data "06:00".data
      1410 360 rfl rfl (by decide) (by decide) (by decide)
  refine ⟨⟨rfl, rfl, by decide, by decide, by decide⟩, ?_, by decide⟩
  rw [h.1, h.2.2.2 (by omega) (by decide)]
  norm_num

/-- C6: every sleep record produced by extraction has `end > start` strictly
(also in the degenerate equal-clock-times case, which gets a full extra day). -/
theorem sleep_stop_after_start (msgs : List Msg) (s : List SleepRecord)
    (f : List FeedRecord) (h : extractRecords msgs = some (s, f)) :
    ∀ r ∈ s, r.start < r.stop := by
  intro r hr
  obtain ⟨m, sm, em, hsm, hem, rfl⟩ := extractRecords_sleep_mem msgs s f h r hr
  exact (sleepRecordOf_bounds m sm em hsm hem).2.2.1

/-- Witness for C6: extraction of the degenerate message succeeds and its
record satisfies the strict inequality. -/
theorem sleep_stop_after_start_witness :
    extractRecords [msgC6] = some ([sleepRecordOf msgC6 600 600], []) ∧
    ∀ r ∈ [sleepRecordOf msgC6 600 600], r.start < r.stop :=
  ⟨by decide, sleep_stop_after_start [msgC6] [sleepRecordOf msgC6 600 600] [] (by decide)⟩

/-- C8: extraction yields at most one record per message, and a message whose
body matches the sleep pattern is never turned into a feed record (the sleep
branch short-circuits the feed test). -/
theorem at_most_one_record_per_message (msgs : List Msg) (s : List SleepRecord)
    (f : List FeedRecord) (h : extractRecords msgs = some (s, f)) :
    s.length + f.length ≤ msgs.length ∧
    ∀ (m : Msg) (body : String), getBody m.text = some body →
      sleepSearch body.data ≠ none →
      ∀ fr : FeedRecord, parseMsg m ≠ ParseResult.feed fr := by
  constructor
  · induction msgs generalizing s f with
    | nil =>
      simp only [extractRecords, Option.some.injEq, Prod.mk.injEq] at h
      rcases h with ⟨hs, hf⟩
      rw [← hs, ← hf]
      simp
    | cons m ms ih =>
      rcases hp : parseMsg m with _ | _ | r1 | f1 <;>
          simp only [extractRecords, hp] at h
      · have := ih s f h
        simp only [List.length_cons]
        omega
      · cases h
      · rcases h2 : extractRecords ms with _ | sf
        · rw [h2] at h
          cases h
        · rcases sf with ⟨s2, f2⟩
          rw [h2] at h
          simp only [Option.some.injEq, Prod.mk.injEq] at h
          rcases h with ⟨hs, hf⟩
          have := ih s2 f2 h2
          rw [← hs, ← hf]
          simp only [List.length_cons]
          omega
      · rcases h2 : extractRecords ms with _ | sf
        · rw [h2] at h
          cases h
        · rcases sf with ⟨s2, f2⟩
          rw [h2] at h
          simp only [Option.some.injEq, Prod.mk.injEq] at h
          rcases h with ⟨hs, hf⟩
          have := ih s2 f2 h2
          rw [← hs, ← hf]
          simp only [List.length_cons]
          omega
  · intro m body hb hs fr hfe
    unfold parseMsg at hfe
    split at hfe
    · cases hfe
    · rw [hb] at hfe
      dsimp only at hfe
      rcases hss : sleepSearch body.data with _ | g
      · exact hs hss
      · rw [hss] at hfe
        rcases g with ⟨g1, g2⟩
        dsimp only at hfe
        split at hfe
        · cases hfe
        · cases hfe

/-- Witness for C8: the double-pattern message yields exactly one (sleep)
record even though the feed pattern matches its body too. -/
theorem at_most_one_record_per_message_witness :
    (extractRecords [msgC8] = some ([sleepRecordOf msgC8 540 600], []) ∧
     feedSearch "09:00-10:00 сон и 14:20 смесь 80".data = some ("14:20".data, 80)) ∧
    ([sleepRecordOf msgC8 540 600].length + ([] : List FeedRecord).length ≤ [msgC8].length ∧
     ∀ (m : Msg) (body : String), getBody m.text = some body →
       sleepSearch body.data ≠ none →
       ∀ fr : FeedRecord, parseMsg m ≠ ParseResult.feed fr) :=
  ⟨⟨by decide, by decide⟩, at_most_one_record_per_message [msgC8] _ _ (by decide)⟩

/-- The accumulate-if loops of `get_daily_stats` compute the sum of the
selected records' contributions. -/
theorem foldl_if_add {α M : Type} [AddCommMonoid M] (p : α → Prop) [DecidablePred p]
    (v : α → M) (l : List α) (init : M) :
    l.foldl (fun acc x => if p x then acc + v x else acc) init
      = init + ((l.filter (fun x => decide (p x))).map v).sum := by
  induction l generalizing init with
  | nil => simp
  | cons x xs ih =>
    by_cases hx : p x <;>
      simp [List.filter_cons, hx, ih, add_assoc]

/-- The date loop visits `(b - a + 1).toNat` days. -/
theorem dateRange_length (a b : Int) : (dateRange a b).length = (b - a + 1).toNat := by
  unfold dateRange
  rw [List.length_map, List.length_range]

/-- The `i`-th visited day is `a + i`. -/
theorem dateRange_get (a b : Int) (i : Nat) (hi : i < (dateRange a b).length) :
    (dateRange a b).get ⟨i, hi⟩ = a + (i : Int) := by
  unfold dateRange at hi ⊢
  simp [List.get_eq_getElem, List.getElem_map, List.getElem_range]

/-- C3: with a non-empty dataset and an ordered date pair, `get_daily_stats`
returns one entry per calendar day of the inclusive range in ascending
order; each entry's feed total is the sum of that day's feed volumes and its
sleep hours are the summed durations of that day's sleep records divided by
3600 (zero when no record is anchored there); the `None` signal occurs
exactly for the empty dataset. -/
theorem daily_stats_zero_filled_range (st : Analyzer) (a b : Int)
    (hne : ¬(st.last_sleep_data = [] ∧ st.last_feed_data = []))
    (hab : a ≤ b) :
    ∃ l, get_daily_stats st a b = some l ∧
      l.length = (b - a).toNat + 1 ∧
      (∀ (i : Nat) (hi : i < l.length),
        (l.get ⟨i, hi⟩).date = a + (i : Int) ∧
        (l.get ⟨i, hi⟩).total_food =
          ((st.last_feed_data.filter (fun fr => decide (fr.date = a + (i : Int)))).map
            (fun fr => fr.amount)).sum ∧
        (l.get ⟨i, hi⟩).sleep_hours =
          ((((st.last_sleep_data.filter (fun sr => decide (sr.date = a + (i : Int)))).map
            (fun sr => sr.stop - sr.start)).sum : Int) : ℚ) / 3600) ∧
      (∀ (st2 : Analyzer) (x y : Int),
        get_daily_stats st2 x y = none ↔
          st2.last_sleep_data = [] ∧ st2.last_feed_data = []) := by
  refine ⟨(dateRange a b).map (dailyStatsFor st), ?_, ?_, ?_, ?_⟩
  · unfold get_daily_stats
    rw [if_neg hne]
  · rw [List.length_map, dateRange_length]
    omega
  · intro i hi
    have hi2 : i < (dateRange a b).length := by
      rw [← List.length_map (dateRange a b) (dailyStatsFor st)]
      exact hi
    have hget : ((dateRange a b).map (dailyStatsFor st)).get ⟨i, hi⟩
        = dailyStatsFor st ((dateRange a b).get ⟨i, hi2⟩) := by
      simp [List.get_eq_getElem, List.getElem_map]
    rw [hget, dateRange_get]
    refine ⟨rfl, ?_, ?_⟩
    · show st.last_feed_data.foldl
          (fun acc f => if f.date = a + (i : Int) then acc + f.amount else acc) 0 = _
      rw [foldl_if_add]
      exact zero_add _
    · show (((st.last_sleep_data.foldl
          (fun acc s => if s.date = a + (i : Int) then acc + (s.stop - s.start) else acc)
          0 : Int)) : ℚ) / 3600 = _
      rw [foldl_if_add]
      rw [zero_add]
  · intro st2 x y
    by_cases hc : st2.last_sleep_data = [] ∧ st2.last_feed_data = [] <;>
      simp [get_daily_stats, hc]

/-- Witness for C3: three entries for the range 100–102 with the middle and
last days zero-filled where no records are anchored. -/
theorem daily_stats_zero_filled_range_witness :
    (¬(stC3.last_sleep_data = [] ∧ stC3.last_feed_data = []) ∧ (100 : Int) ≤ 102) ∧
    get_daily_stats stC3 100 102 =
      some [⟨100, 0, 1, 23⟩, ⟨101, 120, 0, 24⟩, ⟨102, 0, 0, 24⟩] ∧
    (∃ l, get_daily_stats stC3 100 102 = some l ∧ l.length = (102 - 100 : Int).toNat + 1) := by
  refine ⟨⟨by decide, by decide⟩, ?_, ?_⟩
  · unfold get_daily_stats
    rw [if_neg (by decide)]
    have hdr : dateRange 100 102 = [100, 101, 102] := by decide
    rw [hdr]
    norm_num [dailyStatsFor, stC3]
  · obtain ⟨l, h1, h2, _⟩ := daily_stats_zero_filled_range stC3 100 102 (by decide) (by decide)
    exact ⟨l, h1, h2⟩

/-- C9: when `parse_chat_data` raises (in particular on a missing `messages`
key), the failure is the distinct `none` signal and the held dataset is left
unchanged. -/
theorem failed_ingestion_preserves_dataset (st : Analyzer) (a : Archive)
    (h : parse_chat_data a = none) :
    parse_chat_data_run st a = (none, st) ∧
    ∀ a2 : Archive, a2.messages = none → parse_chat_data a2 = none := by
  constructor
  · unfold parse_chat_data_run
    rw [h]
  · intro a2 h2
    unfold parse_chat_data
    rw [h2]

/-- Witness for C9: ingesting an archive without a `messages` key signals
failure and keeps the prior dataset. -/
theorem failed_ingestion_preserves_dataset_witness :
    parse_chat_data ⟨none⟩ = none ∧
    (parse_chat_data_run stC9 ⟨none⟩ = (none, stC9) ∧
     ∀ a2 : Archive, a2.messages = none → parse_chat_data a2 = none) :=
  ⟨by decide, failed_ingestion_preserves_dataset stC9 ⟨none⟩ (by decide)⟩

/-- C10: a successful ingestion recognizing zero records still replaces the
held dataset with the empty one, after which a date-range query returns the
no-dataset signal. -/
theorem empty_ingestion_replaces_dataset (st : Analyzer) (a : Archive)
    (h : parse_chat_data a = some ([], [])) :
    (parse_chat_data_run st a).2 = ⟨[], []⟩ ∧
    ∀ x y : Int, get_daily_stats (parse_chat_data_run st a).2 x y = none := by
  have h2 : parse_chat_data_run st a = (some ([], []), ⟨[], []⟩) := by
    unfold parse_chat_data_run
    rw [h]
  rw [h2]
  exact ⟨rfl, fun x y => by unfold get_daily_stats; rw [if_pos ⟨rfl, rfl⟩]⟩

/-- Witness for C10: after ingesting the record-free archive over a loaded
dataset, the dataset is empty and every range query signals no data. -/
theorem empty_ingestion_replaces_dataset_witness :
    parse_chat_data archC10 = some ([], []) ∧
    ((parse_chat_data_run stC10 archC10).2 = ⟨[], []⟩ ∧
     ∀ x y : Int, get_daily_stats (parse_chat_data_run stC10 archC10).2 x y = none) :=
  ⟨by decide, empty_ingestion_replaces_dataset stC10 archC10 (by decide)⟩

/-- C2: the source has no recovery around `strptime`, so a single malformed
time token aborts the whole extraction; the valid sibling message's record
(which the batch alone would produce) is lost. -/
theorem malformed_time_aborts_batch :
    parseMsg msgC2bad = ParseResult.err ∧
    extractRecords [msgC2bad, msgC2good] = none ∧
    extractRecords [msgC2good] = some ([sleepRecordOf msgC2good 600 660], []) :=
  ⟨by decide, by decide, by decide⟩

/-- C4 counterexample: the record extracted from `msgC4` is drawn on day 100
with an end hour-offset of 30, which is not within the 0..24 range. -/
theorem timeline_end_offset_exceeds_24 :
    parse_chat_data ⟨some [msgC4]⟩ = some ([⟨100, 8724600, 8748000⟩], []) ∧
    timelineDays [⟨100, 8724600, 8748000⟩] [] = [100] ∧
    sleepSpansForDay [⟨100, 8724600, 8748000⟩] 100 = [(47 / 2, 30)] ∧
    ¬((30 : ℚ) ≤ 24) := by
  refine ⟨by decide, by decide, ?_, by norm_num⟩
  unfold sleepSpansForDay
  norm_num [List.filter]

/-- C4 amended: for every day drawn on the timeline, sleep start offsets and
feed offsets lie within 0..24 (in fact in `[0, 24)`), while sleep end
offsets lie within 0..48, exceeding 24 exactly when the interval was pushed
across midnight. -/
theorem timeline_offsets_bounded (msgs : List Msg) (s : List SleepRecord)
    (f : List FeedRecord) (h : extractRecords msgs = some (s, f)) :
    (∀ day ∈ timelineDays s f, ∀ p ∈ sleepSpansForDay s day,
       0 ≤ p.1 ∧ p.1 < 24 ∧ 0 ≤ p.2 ∧ p.2 < 48) ∧
    (∀ day ∈ timelineDays s f, ∀ t ∈ feedPointsForDay f day, 0 ≤ t ∧ t < 24) := by
  constructor
  · intro day hday p hp
    unfold sleepSpansForDay at hp
    rw [List.mem_map] at hp
    obtain ⟨r, hrf, rfl⟩ := hp
    have hrs : r ∈ s := List.mem_of_mem_filter hrf
    have hdate : r.date = day := by
      have := List.of_mem_filter hrf
      simpa using this
    obtain ⟨m, sm, em, hsm, hem, rfl⟩ := extractRecords_sleep_mem msgs s f h r hrs
    obtain ⟨hb1, hb2, hb3, hb4⟩ := sleepRecordOf_bounds m sm em hsm hem
    rw [← hdate]
    refine ⟨qdiv3600_nonneg _ hb1, ?_, qdiv3600_nonneg _ (by omega), ?_⟩
    · exact_mod_cast qdiv3600_lt _ 24 (by omega)
    · exact_mod_cast qdiv3600_lt _ 48 (by omega)
  · intro day hday t ht
    unfold feedPointsForDay at ht
    rw [List.mem_map] at ht
    obtain ⟨r, hrf, rfl⟩ := ht
    have hrs : r ∈ f := List.mem_of_mem_filter hrf
    have hdate : r.date = day := by
      have := List.of_mem_filter hrf
      simpa using this
    obtain ⟨fm, hfm, htime⟩ := extractRecords_feed_mem msgs s f h r hrs
    rw [← hdate]
    constructor
    · exact qdiv3600_nonneg _ (by omega)
    · exact_mod_cast qdiv3600_lt _ 24 (by omega)

/-- Witness for C4 amended: the bounds hold for the overnight record. -/
theorem timeline_offsets_bounded_witness :
    extractRecords [msgC4] = some ([⟨100, 8724600, 8748000⟩], []) ∧
    ((∀ day ∈ timelineDays [⟨100, 8724600, 8748000⟩] [],
        ∀ p ∈ sleepSpansForDay [⟨100, 8724600, 8748000⟩] day,
          0 ≤ p.1 ∧ p.1 < 24 ∧ 0 ≤ p.2 ∧ p.2 < 48) ∧
     (∀ day ∈ timelineDays [⟨100, 8724600, 8748000⟩] [],
        ∀ t ∈ feedPointsForDay [] day, 0 ≤ t ∧ t < 24)) :=
  ⟨by decide,
   timeline_offsets_bounded [msgC4] [⟨100, 8724600, 8748000⟩] [] (by decide)⟩

/-- C5 counterexample: a segment that is neither a string nor a dict makes
`.get` raise, so the whole extraction fails instead of treating the segment
as empty (which would have produced one sleep record here). -/
theorem nonobject_segment_raises :
    getBody msgC5bad.text = none ∧
    parse_chat_data ⟨some [msgC5bad]⟩ = none :=
  ⟨by decide, by decide⟩

/-- A segment joins without an exception exactly when `segOk` accepts it. -/
theorem segmentText_none_iff (j : Json) : segmentText j = none ↔ segOk j = false := by
  cases j with
  | str s => simp [segmentText, segOk]
  | obj fields =>
    unfold segmentText segOk
    dsimp only
    rcases h : List.lookup "text" fields with _ | v
    · simp
    · cases v <;> simp
  | num n => simp [segmentText, segOk]
  | arr xs => simp [segmentText, segOk]
  | boolean b => simp [segmentText, segOk]
  | null => simp [segmentText, segOk]

/-- The join succeeds on all-acceptable segments and produces the
concatenation of their contributions. -/
theorem joinSegs_ok (xs : List Json) (hok : ∀ j ∈ xs, segOk j = true) :
    joinSegs xs = some (concatSegs xs) := by
  induction xs with
  | nil => rfl
  | cons j js ih =>
    have hj : segOk j = true := hok j (List.mem_cons_self j js)
    have hsome : segmentText j = some ((segmentText j).getD "") := by
      rcases hst : segmentText j with _ | v
      · rw [segmentText_none_iff] at hst
        rw [hst] at hj
        cases hj
      · rfl
    unfold joinSegs
    rw [hsome, ih (fun x hx => hok x (List.mem_cons_of_mem j hx))]
    rfl

/-- The join raises as soon as any segment is unacceptable. -/
theorem joinSegs_bad (xs : List Json) (hbad : ∃ j ∈ xs, segOk j = false) :
    joinSegs xs = none := by
  induction xs with
  | nil =>
    rcases hbad with ⟨j, hj, _⟩
    cases hj
  | cons j js ih =>
    rcases hbad with ⟨j2, hj2, hbad2⟩
    rcases List.mem_cons.mp hj2 with h1 | h2
    · unfold joinSegs
      rw [h1] at hbad2
      rw [← segmentText_none_iff] at hbad2
      rw [hbad2]
    · unfold joinSegs
      rw [ih ⟨j2, h2, hbad2⟩]
      rcases segmentText j with _ | v <;> rfl

/-- C5 amended: a list-valued text whose segments are all strings or dicts
(with a missing or string `'text'` entry) is joined into the concatenation
of the segment contributions, a dict without `'text'` contributing the empty
string; if any segment is of another shape, the join raises and the body is
not formed. -/
theorem segment_list_concatenation (m : Msg) (xs : List Json)
    (hm : m.text = Json.arr xs) :
    ((∀ j ∈ xs, segOk j = true) → getBody m.text = some (concatSegs xs)) ∧
    ((∃ j ∈ xs, segOk j = false) → getBody m.text = none) := by
  rw [hm]
  exact ⟨joinSegs_ok xs, joinSegs_bad xs⟩

/-- Witness for C5 amended: the three segments concatenate to a sleep-pattern
body and extraction produces the corresponding record. -/
theorem segment_list_concatenation_witness :
    (∀ j ∈ [Json.str "09:30-11:00 ", Json.obj [("text", Json.str "сон")],
            Json.obj [("kind", Json.num 1)]], segOk j = true) ∧
    getBody msgC5.text =
      some (concatSegs [Json.str "09:30-11:00 ", Json.obj [("text", Json.str "сон")],
                        Json.obj [("kind", Json.num 1)]]) ∧
    getBody msgC5.text = some "09:30-11:00 сон" ∧
    parseMsg msgC5 = ParseResult.sleep (sleepRecordOf msgC5 570 660) :=
  ⟨by decide,
   (segment_list_concatenation msgC5 _ rfl).1 (by decide),
   by decide, by decide⟩

/-- C7 counterexample: with a comma-space separator (one-or-more non-time
characters) the feed pattern does not match and no record is produced, since
the regex requires exactly one literal space before the token. -/
theorem feed_comma_separator_rejected :
    feedSearch "14:20, смесь 80".data = none ∧
    parse_chat_data ⟨some [msgC7sep]⟩ = some ([], []) :=
  ⟨by decide, by decide⟩

/-- The position scan succeeds as soon as some position matches. -/
theorem feedSearch_isSome_append (pre cs : List Char)
    (h : (feedMatchAt cs).isSome) : (feedSearch (pre ++ cs)).isSome := by
  induction pre with
  | nil =>
    cases cs with
    | nil => cases h
    | cons c rest =>
      rw [List.nil_append]
      unfold feedSearch
      rcases hm : feedMatchAt (c :: rest) with _ | g
      · rw [hm] at h
        cases h
      · rfl
  | cons p ps ih =>
    rw [List.cons_append]
    unfold feedSearch
    rcases hm : feedMatchAt (p :: (ps ++ cs)) with _ | g
    · exact ih
    · rfl

/-- When every position's candidate time is acceptable, the token captured by
the search is acceptable. -/
theorem feedSearch_valid (cs : List Char) (hv : feedTimesValid cs = true)
    (g : List Char) (n : Nat) (h : feedSearch cs = some (g, n)) :
    (toTimeMin g).isSome := by
  induction cs with
  | nil => cases h
  | cons c rest ih =>
    unfold feedTimesValid at hv
    rcases Bool.and_eq_true_iff.mp hv with ⟨hv1, hv2⟩
    unfold feedSearch at h
    rcases hm : feedMatchAt (c :: rest) with _ | g2
    · rw [hm] at h
      exact ih hv2 h
    · rw [hm] at h
      unfold feedTimeValidAt at hv1
      rw [hm] at hv1
      rcases g2 with ⟨g3, n3⟩
      cases h
      exact hv1

/-- Consuming a literal it was just prepended. -/
theorem dropLit_append (lit tail : List Char) : dropLit lit (lit ++ tail) = some tail := by
  induction lit with
  | nil => rfl
  | cons c cs ih =>
    rw [List.cons_append]
    unfold dropLit
    rw [if_pos rfl]
    exact ih

/-- `[^\d]*` consumes exactly the non-digit characters before the run. -/
theorem firstNumberAfter_skip (mid rest : List Char)
    (hmid : ∀ x ∈ mid, x.isDigit = false) :
    firstNumberAfter (mid ++ rest) = firstNumberAfter rest := by
  induction mid with
  | nil => rfl
  | cons c cs ih =>
    rw [List.cons_append]
    have hstep : firstNumberAfter (c :: (cs ++ rest)) = firstNumberAfter (cs ++ rest) := by
      show (if c.isDigit then some (digitRunVal (c :: (cs ++ rest)) 0)
            else firstNumberAfter (cs ++ rest)) = _
      rw [if_neg (by simp [hmid c (List.mem_cons_self c cs)])]
    rw [hstep]
    exact ih (fun x hx => hmid x (List.mem_cons_of_mem c hx))

/-- A two-digit clock-time token matches at the head of the text. -/
theorem matchTimeAt_cons (a b c d e : Char) (rest : List Char)
    (hdig : a.isDigit ∧ b.isDigit ∧ c = ':' ∧ d.isDigit ∧ e.isDigit) :
    matchTimeAt (a :: b :: c :: d :: e :: rest) = some ([a, b, c, d, e], rest) := by
  unfold matchTimeAt
  dsimp only
  rw [if_pos hdig]

/-- A position carrying `HH:MM`, one literal space, the token, non-digits and
a digit run matches the feed pattern. -/
theorem feedMatchAt_shape (a b c d e : Char) (mid ds post : List Char)
    (hdig : a.isDigit ∧ b.isDigit ∧ c = ':' ∧ d.isDigit ∧ e.isDigit)
    (hmid : ∀ x ∈ mid, x.isDigit = false)
    (hds1 : ds ≠ []) (hds2 : ∀ x ∈ ds, x.isDigit = true) :
    (feedMatchAt ([a, b, c, d, e] ++
        ((' ' :: "смесь".data) ++ (mid ++ (ds ++ post))))).isSome := by
  show (feedMatchAt (a :: b :: c :: d :: e ::
      ((' ' :: "смесь".data) ++ (mid ++ (ds ++ post))))).isSome = true
  unfold feedMatchAt
  rw [matchTimeAt_cons a b c d e _ hdig]
  dsimp only
  rw [dropLit_append (' ' :: "смесь".data) (mid ++ (ds ++ post))]
  dsimp only
  rw [firstNumberAfter_skip mid (ds ++ post) hmid]
  cases ds with
  | nil => exact absurd rfl hds1
  | cons x xs =>
    rw [List.cons_append]
    have hx : firstNumberAfter (x :: (xs ++ post))
        = some (digitRunVal (x :: (xs ++ post)) 0) := by
      show (if x.isDigit then some (digitRunVal (x :: (xs ++ post)) 0)
            else firstNumberAfter (xs ++ post)) = _
      rw [if_pos (hds2 x (List.mem_cons_self x xs))]
    rw [hx]
    rfl

/-- C7 amended: the separator between the time and the token must be exactly
one space; a message whose body contains `HH:MM`, a single space, `смесь`,
any non-digit characters and then a digit run yields a feed record, provided
the sleep pattern does not match the body and the feed times occurring in
the body are acceptable clock times. -/
theorem feed_single_space_separator (m : Msg) (pre mid ds post : List Char)
    (a b c d e : Char) (body : String)
    (htype : m.type = some "message")
    (hbody : getBody m.text = some body)
    (hchars : body.data =
      pre ++ ([a, b, c, d, e] ++ ((' ' :: "смесь".data) ++ (mid ++ (ds ++ post)))))
    (hdig : a.isDigit ∧ b.isDigit ∧ c = ':' ∧ d.isDigit ∧ e.isDigit)
    (hmid : ∀ x ∈ mid, x.isDigit = false)
    (hds1 : ds ≠ []) (hds2 : ∀ x ∈ ds, x.isDigit = true)
    (hnosleep : sleepSearch body.data = none)
    (hvalid : feedTimesValid body.data = true) :
    ∃ fr : FeedRecord, parseMsg m = ParseResult.feed fr := by
  have hsome : (feedSearch body.data).isSome := by
    rw [hchars]
    exact feedSearch_isSome_append pre _
      (feedMatchAt_shape a b c d e mid ds post hdig hmid hds1 hds2)
  obtain ⟨gn, hgs⟩ := Option.isSome_iff_exists.mp hsome
  rcases gn with ⟨g, n⟩
  have htv := feedSearch_valid body.data hvalid g n hgs
  obtain ⟨fm, hfm⟩ := Option.isSome_iff_exists.mp htv
  refine ⟨⟨m.day, m.day * 86400 + fm * 60, n⟩, ?_⟩
  unfold parseMsg
  rw [if_neg (by simp [htype])]
  rw [hbody]
  dsimp only
  rw [hnosleep]
  dsimp only
  rw [hgs]
  dsimp only
  rw [hfm]

/-- Witness for C7 amended: the decomposition hypotheses hold for
`14:20 смесь 80` and a feed record is produced. -/
theorem feed_single_space_separator_witness :
    (msgC7w.type = some "message" ∧
     getBody msgC7w.text = some "14:20 смесь 80" ∧
     "14:20 смесь 80".data =
       [] ++ (['1', '4', ':', '2', '0'] ++
         ((' ' :: "смесь".data) ++ ([' '] ++ (['8', '0'] ++ [])))) ∧
     sleepSearch "14:20 смесь 80".data = none ∧
     feedTimesValid "14:20 смесь 80".data = true) ∧
    (∃ fr : FeedRecord, parseMsg msgC7w = ParseResult.feed fr) ∧
    parseMsg msgC7w = ParseResult.feed ⟨230, 230 * 86400 + 860 * 60, 80⟩ :=
  ⟨⟨rfl, rfl, by decide, by decide, by decide⟩,
   feed_single_space_separator msgC7w [] [' '] ['8', '0'] [] '1' '4' ':' '2' '0'
     "14:20 смесь 80" rfl rfl (by decide) (by decide) (by decide) (by decide)
     (by decide) (by decide) (by decide),
   by decide⟩
